import Mathlib

/-!
Verification of the SeqGAN generator module (generator.py): the reward-weighted
loss (GeneratorLoss.forward), the vocabulary-masking utility (ignoreTokens),
the forward pass and sampling loop of the Generator, and the train_generator
epoch loop, shallowly embedded over lists of real numbers.

Tensors are modelled as nested lists: a (batch × position) tensor is a
List (List _), a (batch × position × vocab) tensor is a List (List (List ℝ)).
The pretrained LSTM core (lstmCore.py, not part of the sources) is abstracted
as a function argument; categorical sampling is abstracted as a function
argument since it is stochastic.
-/

namespace SeqGAN

/-- Modelled from the spec: MAXINT is a configuration constant from config.py
(absent from the sources); the spec only requires the masking sentinel -MAXINT
to be a very large negative value, so we fix a large positive real. None of the
theorems below depend on its numeric value. -/
def MAXINT : ℝ := 2 ^ 62

/-- Pointwise combination of three lists, truncating at the shortest,
mirroring elementwise tensor ops on equally-shaped tensors. -/
def zipWith3 (f : α → β → γ → δ) : List α → List β → List γ → List δ
  | a :: as, b :: bs, c :: cs => f a b c :: zipWith3 f as bs cs
  | _, _, _ => []

/-- torch.clamp(p, min=1e-20, max=1.0). -/
def clampP (p : ℝ) : ℝ := min (max p 1e-20) 1.0

/-- Row of length n that is 1.0 at index t and 0.0 elsewhere: the result of
createOneHotDummy followed by scatter_(1, x1, 1) at one flattened position. -/
def oneHot (n t : ℕ) : List ℝ := (List.range n).map (fun j => if j = t then 1 else 0)

/-- Contribution of one flattened position: the one-hot row times the
elementwise log of the clamped prediction row, summed over the vocabulary
dimension (reduced_prod), multiplied by that position's reward. -/
noncomputable def lossTerm (prow : List ℝ) (t : ℕ) (r : ℝ) : ℝ :=
  (List.zipWith (fun o q => o * Real.log (clampP q)) (oneHot prow.length t) prow).sum * r

/-- GeneratorLoss.forward: flatten the three tensors along batch × position
(view(-1, ...)), form the per-position reward-weighted log-probability terms,
and sum them.  NOTE: the source returns torch.sum(rewards_prod) with no
negation, although its own docstring describes g_loss = -reduce_sum(...). -/
noncomputable def GeneratorLoss_forward (prediction : List (List (List ℝ)))
    (x : List (List ℕ)) (rewards : List (List ℝ)) : ℝ :=
  (zipWith3 lossTerm prediction.flatten x.flatten rewards.flatten).sum

lemma zipWith3_nil_right (f : α → β → γ → δ) (as : List α) (bs : List β) :
    zipWith3 f as bs [] = [] := by
  cases as <;> cases bs <;> rfl

/-- If every entry of the third list is zero and f returns zero on zero third
argument, the zipWith3 sum vanishes. -/
lemma zipWith3_sum_zero (g : α → β → ℝ) (as : List α) (bs : List β) (cs : List ℝ)
    (h : ∀ c ∈ cs, c = 0) :
    (zipWith3 (fun a b c => g a b * c) as bs cs).sum = 0 := by
  induction as generalizing bs cs with
  | nil => cases bs <;> cases cs <;> simp [zipWith3]
  | cons a as ih =>
    cases bs with
    | nil => cases cs <;> simp [zipWith3]
    | cons b bs =>
      cases cs with
      | nil => simp [zipWith3]
      | cons c cs =>
        have hc : c = 0 := h c (by simp)
        have hrest : ∀ x ∈ cs, x = 0 := fun x hx => h x (by simp [hx])
        simp [zipWith3, hc, ih bs cs hrest]

/-- lossTerm has the shape (per-position factor) * reward. -/
lemma lossTerm_eq (prow : List ℝ) (t : ℕ) (r : ℝ) :
    lossTerm prow t r =
      (List.zipWith (fun o q => o * Real.log (clampP q)) (oneHot prow.length t) prow).sum * r :=
  rfl

/-- Helper: the loss is zero whenever every reward entry is zero. -/
lemma generatorLoss_zero_of_zero_rewards (prediction : List (List (List ℝ)))
    (x : List (List ℕ)) (rewards : List (List ℝ))
    (h : ∀ row ∈ rewards, ∀ v ∈ row, v = 0) :
    GeneratorLoss_forward prediction x rewards = 0 := by
  have hj : ∀ c ∈ rewards.flatten, c = 0 := by
    intro c hc
    rcases List.mem_flatten.mp hc with ⟨row, hrow, hcrow⟩
    exact h row hrow c hcrow
  have hfun : (fun (p : List ℝ) (t : ℕ) (r : ℝ) => lossTerm p t r)
      = fun p t r => ((List.zipWith (fun o q => o * Real.log (clampP q)) (oneHot p.length t) p).sum) * r := by
    funext p t r
    exact lossTerm_eq p t r
  unfold GeneratorLoss_forward
  calc (zipWith3 lossTerm prediction.flatten x.flatten rewards.flatten).sum
      = (zipWith3 (fun p t r => ((List.zipWith (fun o q => o * Real.log (clampP q)) (oneHot p.length t) p).sum) * r)
          prediction.flatten x.flatten rewards.flatten).sum := by rw [show lossTerm = _ from hfun]
    _ = 0 := zipWith3_sum_zero _ _ _ _ hj

/-- C1: the code returns the UNNEGATED sum.  On the spec's own example —
a single position with uniform predicted probability 0.2 over 5 vocabulary
entries, reference token 2, reward 1.0 — GeneratorLoss.forward evaluates to
log 0.2 ≈ -1.609, which is negative, hence not the claimed -log 0.2 ≈ +1.609.
This contradicts the function's own docstring, which specifies
g_loss = -reduce_sum(reduced_pred * reshaped_rewards). -/
theorem generatorLoss_returns_unnegated_sum :
    GeneratorLoss_forward [[[0.2, 0.2, 0.2, 0.2, 0.2]]] [[2]] [[1.0]] = Real.log 0.2
      ∧ Real.log (0.2 : ℝ) < 0
      ∧ Real.log (0.2 : ℝ) ≠ -Real.log (0.2 : ℝ) := by
  have hneg : Real.log (0.2 : ℝ) < 0 := Real.log_neg (by norm_num) (by norm_num)
  refine ⟨?_, hneg, by intro h; nlinarith⟩
  have hclamp : clampP 0.2 = 0.2 := by
    unfold clampP
    rw [max_eq_left (by norm_num), min_eq_left (by norm_num)]
  unfold GeneratorLoss_forward
  simp [zipWith3, lossTerm, oneHot, List.range_succ, hclamp]
  norm_num

/-- C8: for every prediction tensor and reference tensor, an everywhere-zero
reward tensor makes GeneratorLoss.forward return exactly 0. -/
theorem generatorLoss_zero_when_rewards_zero (prediction : List (List (List ℝ)))
    (x : List (List ℕ)) (rewards : List (List ℝ))
    (h : ∀ row ∈ rewards, ∀ v ∈ row, v = 0) :
    GeneratorLoss_forward prediction x rewards = 0 :=
  generatorLoss_zero_of_zero_rewards prediction x rewards h

/-- Witness for C8 at a concrete input. -/
theorem generatorLoss_zero_when_rewards_zero_witness :
    (∀ row ∈ [[(0 : ℝ), 0]], ∀ v ∈ row, v = 0)
      ∧ GeneratorLoss_forward [[[0.3, 0.7], [0.5, 0.5]]] [[0, 1]] [[(0 : ℝ), 0]] = 0 := by
  have h : ∀ row ∈ [[(0 : ℝ), 0]], ∀ v ∈ row, v = 0 := by
    intro row hrow v hv
    simp at hrow
    subst hrow
    simpa using hv
  exact ⟨h, generatorLoss_zero_when_rewards_zero _ _ _ h⟩

/-! ### ignoreTokens -/

/-- One iteration of the ignoreTokens loop on a row: original[..., token] = -MAXINT. -/
def setTok (row : List ℝ) (token : ℕ) : List ℝ := row.set token (-MAXINT)

/-- Generator.ignoreTokens on a 2-dimensional (batch × vocab) tensor:
for each token in the ignore collection, original[:, token] = -MAXINT;
None returns the input unchanged. -/
def ignoreTokens2 (original : List (List ℝ)) (ignored_tokens : Option (List ℕ)) :
    List (List ℝ) :=
  match ignored_tokens with
  | none => original
  | some toks => toks.foldl (fun cur token => cur.map (fun row => setTok row token)) original

/-- Generator.ignoreTokens on a 3-dimensional (batch × position × vocab) tensor:
for each token in the ignore collection, original[:, :, token] = -MAXINT;
None returns the input unchanged. -/
def ignoreTokens3 (original : List (List (List ℝ))) (ignored_tokens : Option (List ℕ)) :
    List (List (List ℝ)) :=
  match ignored_tokens with
  | none => original
  | some toks =>
    toks.foldl (fun cur token => cur.map (fun mat => mat.map (fun row => setTok row token))) original

/-- Entry (b, t) of a 2-dimensional tensor. -/
def entry2 (m : List (List ℝ)) (b t : ℕ) : Option ℝ := m[b]?.bind (fun row => row[t]?)

/-- Entry (b, p, t) of a 3-dimensional tensor. -/
def entry3 (m : List (List (List ℝ))) (b p t : ℕ) : Option ℝ :=
  m[b]?.bind (fun mat => entry2 mat p t)

/-- A fold that maps g tokenwise over the outer list equals mapping the
elementwise fold: the per-column assignments act on every row independently. -/
lemma foldl_map_comm (g : ℕ → α → α) (toks : List ℕ) (m : List α) :
    toks.foldl (fun cur token => cur.map (g token)) m
      = m.map (fun a => toks.foldl (fun x token => g token x) a) := by
  induction toks generalizing m with
  | nil => simp
  | cons tok rest ih =>
    simp only [List.foldl_cons]
    rw [ih (m.map (g tok)), List.map_map]
    rfl

/-- Folding setTok preserves row length. -/
lemma rowFold_length (toks : List ℕ) (row : List ℝ) :
    (toks.foldl setTok row).length = row.length := by
  induction toks generalizing row with
  | nil => rfl
  | cons tok rest ih => simp [ih, setTok]

/-- Indices not in the ignore collection keep their value. -/
lemma rowFold_getElem_not_mem (toks : List ℕ) (row : List ℝ) (t : ℕ) (ht : t ∉ toks) :
    (toks.foldl setTok row)[t]? = row[t]? := by
  induction toks generalizing row with
  | nil => rfl
  | cons tok rest ih =>
    have h1 : t ∉ rest := fun hmem => ht (by simp [hmem])
    have h2 : tok ≠ t := fun he => ht (by simp [he])
    simp only [List.foldl_cons]
    rw [ih (setTok row tok) h1, setTok, List.getElem?_set_ne h2]

/-- Every in-bounds ignored index is set to -MAXINT. -/
lemma rowFold_getElem_mem (toks : List ℕ) (row : List ℝ) (t : ℕ)
    (hmem : t ∈ toks) (hlt : t < row.length) :
    (toks.foldl setTok row)[t]? = some (-MAXINT) := by
  induction toks generalizing row with
  | nil => cases hmem
  | cons tok rest ih =>
    simp only [List.foldl_cons]
    by_cases hrest : t ∈ rest
    · exact ih (setTok row tok) hrest (by simpa [setTok] using hlt)
    · have he : t = tok := by
        rcases List.mem_cons.mp hmem with h | h
        · exact h
        · exact absurd h hrest
      subst he
      rw [rowFold_getElem_not_mem rest (setTok row t) t hrest, setTok,
        List.getElem?_set_eq_of_lt _ hlt]

/-- ignoreTokens on a 2D tensor acts row by row as the setTok fold. -/
lemma ignoreTokens2_eq_map (m : List (List ℝ)) (toks : List ℕ) :
    ignoreTokens2 m (some toks) = m.map (fun row => toks.foldl setTok row) := by
  unfold ignoreTokens2
  exact foldl_map_comm (fun token row => setTok row token) toks m

/-- ignoreTokens on a 3D tensor acts entry-matrix by entry-matrix. -/
lemma ignoreTokens3_eq_map (m : List (List (List ℝ))) (toks : List ℕ) :
    ignoreTokens3 m (some toks)
      = m.map (fun mat => mat.map (fun row => toks.foldl setTok row)) := by
  show toks.foldl (fun cur token => cur.map (fun mat => mat.map (fun row => setTok row token))) m
      = m.map (fun mat => mat.map (fun row => toks.foldl setTok row))
  rw [foldl_map_comm (fun token mat => mat.map (fun row => setTok row token)) toks m]
  refine List.map_congr_left (fun mat _ => ?_)
  exact foldl_map_comm (fun token row => setTok row token) toks mat

/-- C7: ignoreTokens (a) leaves the tensor unchanged when the ignore collection
is None or empty (both in 2D and 3D), and (b) writes -MAXINT at every
in-bounds suppressed vocabulary index, at every batch index (2D) and every
batch/position index (3D). -/
theorem ignoreTokens_masks_all_suppressed_indices
    (m2 : List (List ℝ)) (m3 : List (List (List ℝ))) (toks : List ℕ)
    (b p t : ℕ) (hmem : t ∈ toks) :
    (ignoreTokens2 m2 none = m2 ∧ ignoreTokens3 m3 none = m3
      ∧ ignoreTokens2 m2 (some []) = m2 ∧ ignoreTokens3 m3 (some []) = m3)
    ∧ (∀ row, m2[b]? = some row → t < row.length →
        entry2 (ignoreTokens2 m2 (some toks)) b t = some (-MAXINT))
    ∧ (∀ mat row, m3[b]? = some mat → mat[p]? = some row → t < row.length →
        entry3 (ignoreTokens3 m3 (some toks)) b p t = some (-MAXINT)) := by
  refine ⟨⟨rfl, rfl, rfl, rfl⟩, ?_, ?_⟩
  · intro row hb hlt
    rw [ignoreTokens2_eq_map]
    unfold entry2
    rw [List.getElem?_map, hb]
    simp [rowFold_getElem_mem toks row t hmem hlt]
  · intro mat row hb hp hlt
    rw [ignoreTokens3_eq_map]
    unfold entry3 entry2
    rw [List.getElem?_map, hb]
    simp only [Option.map_some', Option.some_bind]
    rw [List.getElem?_map, hp]
    simp [rowFold_getElem_mem toks row t hmem hlt]

/-- Witness for C7: ignore collection [1] on a 2×2 matrix and a 1×1×2 tensor. -/
theorem ignoreTokens_masks_all_suppressed_indices_witness :
    (1 ∈ [1] ∧ ([[(1 : ℝ), 2], [3, 4]])[0]? = some [(1 : ℝ), 2] ∧ 1 < [(1 : ℝ), 2].length)
    ∧ entry2 (ignoreTokens2 [[(1 : ℝ), 2], [3, 4]] (some [1])) 0 1 = some (-MAXINT) := by
  have h := ignoreTokens_masks_all_suppressed_indices
    [[(1 : ℝ), 2], [3, 4]] [[[(5 : ℝ), 6]]] [1] 0 0 1 (by simp)
  exact ⟨⟨by decide, rfl, by decide⟩, h.2.1 [(1 : ℝ), 2] rfl (by decide)⟩

/-! ### Softmax, Generator.forward and the train_generator batch call -/

/-- Softmax over one vocabulary row. -/
noncomputable def softmaxRow (l : List ℝ) : List ℝ :=
  l.map (fun z => Real.exp z / (l.map Real.exp).sum)

/-- nn.Softmax(dim=2) on a (batch × position × vocab) tensor. -/
noncomputable def softmax3 (m : List (List (List ℝ))) : List (List (List ℝ)) :=
  m.map (fun mat => mat.map softmaxRow)

/-- In exact real arithmetic every softmax entry over a nonempty row is
strictly positive: a finite sentinel such as -MAXINT can only make the
normalized mass exactly zero through floating-point underflow of exp. -/
lemma softmaxRow_entry_pos (l : List ℝ) (hl : l ≠ []) (z : ℝ) :
    0 < Real.exp z / (l.map Real.exp).sum := by
  have hsum : 0 < (l.map Real.exp).sum := by
    refine List.sum_pos _ (fun x hx => ?_) (by simpa using hl)
    rcases List.mem_map.mp hx with ⟨w, _, hw⟩
    exact hw ▸ Real.exp_pos w
  exact div_pos (Real.exp_pos z) hsum

/-- Result of one Generator.forward call: the cached probability tensor
self.y_prob, the sampled output self.y_output, and self.loss_variable. -/
structure ForwardResult where
  y_prob : List (List (List ℝ))
  y_output : List (List ℕ)
  loss_variable : ℝ

/-- Generator.forward.  The pretrained LSTM core (lstmCore.py is not among
the sources) is abstracted as the function pretrain_model from the input batch
and the sentence-length argument to its tag_space logits tensor; multinomial
sampling is abstracted as the function sampler.  Mirrors the source: the
third positional parameter is ignored_tokens (defaulted from the field when
None), the fourth is sentence_lengths, and the pretrained model is invoked
with sentence_lengths=None regardless of the caller's fourth argument. -/
noncomputable def Generator_forward
    (pretrain_model : List (List ℕ) → Option (List ℕ) → List (List (List ℝ)))
    (sampler : List (List (List ℝ)) → List (List ℕ))
    (self_ignored_tokens : Option (List ℕ))
    (x : List (List ℕ)) (rewards : Option (List (List ℝ)))
    (ignored_tokens : Option (List ℕ)) (sentence_lengths : Option (List ℕ)) :
    ForwardResult :=
  let it := match ignored_tokens with
    | none => self_ignored_tokens
    | some ts => some ts
  let y_pred := pretrain_model x none
  let y_pred2 := ignoreTokens3 y_pred it
  let y_prob := softmax3 y_pred2
  let y_output := sampler y_prob
  let rwds := match rewards with
    | none => y_prob.map (fun mat => mat.map List.sum)
    | some r => r
  { y_prob := y_prob, y_output := y_output,
    loss_variable := GeneratorLoss_forward y_prob x rwds }

/-- One batch iteration of the train_generator loop: slice x, reward and
sentence_lengths at the batch pointer (pointer = k * batch_size) and invoke
model(x_batch, r_batch, s_length) — three positional arguments, so s_length
binds to forward's third parameter ignored_tokens and forward's own
sentence_lengths parameter keeps its default None. -/
noncomputable def trainGenStep
    (pretrain_model : List (List ℕ) → Option (List ℕ) → List (List (List ℝ)))
    (sampler : List (List (List ℝ)) → List (List ℕ))
    (self_ignored_tokens : Option (List ℕ))
    (x : List (List ℕ)) (reward : List (List ℝ)) (sentence_lengths : List ℕ)
    (batch_size k : ℕ) : ForwardResult :=
  let x_batch := (x.drop (k * batch_size)).take batch_size
  let r_batch := (reward.drop (k * batch_size)).take batch_size
  let s_length := (sentence_lengths.drop (k * batch_size)).take batch_size
  Generator_forward pretrain_model sampler self_ignored_tokens
    x_batch (some r_batch) (some s_length) none

/-- C2: in every batch iteration of train_generator the per-batch
sentence-length slice is bound to forward's ignored_tokens parameter, so the
probability tensor is the softmax of the logits masked at exactly those
sentence-length values while the pretrained model itself is called with
sentence_lengths = None; and forward's result never depends on its own
sentence_lengths argument (the model is always invoked with None). -/
theorem train_step_masks_sentence_length_values
    (pretrain_model : List (List ℕ) → Option (List ℕ) → List (List (List ℝ)))
    (sampler : List (List (List ℝ)) → List (List ℕ))
    (self_ignored_tokens : Option (List ℕ))
    (x : List (List ℕ)) (reward : List (List ℝ)) (sentence_lengths : List ℕ)
    (batch_size k : ℕ) :
    ((trainGenStep pretrain_model sampler self_ignored_tokens x reward
        sentence_lengths batch_size k).y_prob
      = softmax3 (ignoreTokens3
          (pretrain_model ((x.drop (k * batch_size)).take batch_size) none)
          (some ((sentence_lengths.drop (k * batch_size)).take batch_size))))
    ∧ (∀ xb rb it slv, Generator_forward pretrain_model sampler self_ignored_tokens xb rb it slv
        = Generator_forward pretrain_model sampler self_ignored_tokens xb rb it none) :=
  ⟨rfl, fun _ _ _ _ => rfl⟩

/-! ### Generator.generate_LSTMCore -/

/-- Generator.generate_LSTMCore.  SEQ_LENGTH is the config.py constant (the
file is not among the sources; the spec requires SEQ_LENGTH ≥ 1), kept here as
an explicit parameter.  One loop iteration — feeding the previous column
through the pretrained model, masking, softmax and multinomial sampling, with
the recurrent hidden state carried along — is abstracted as stepS from the
hidden state and the previous sampled column to the new state and the newly
sampled column; the sampled batch starts as a single column of start tokens
and the loop appends SEQ_LENGTH - 1 sampled columns. -/
def generate_LSTMCore (stepS : σ → List ℕ → σ × List ℕ) (s0 : σ)
    (start_token : ℕ) (batch_size SEQ_LENGTH : ℕ) : List (List ℕ) :=
  let y0 := List.replicate batch_size start_token
  let init : List (List ℕ) := y0.map (fun t => [t])
  ((List.range (SEQ_LENGTH - 1)).foldl
    (fun st _ =>
      let r := stepS st.1 st.2.1
      (r.1, r.2, List.zipWith (fun row t => row ++ [t]) st.2.2 r.2))
    (s0, y0, init)).2.2

/-- Any member of the column-append zip comes from appending one token to a
previous row. -/
lemma mem_zipWith_append (rows : List (List ℕ)) (ys : List ℕ) (r : List ℕ)
    (hr : r ∈ List.zipWith (fun row t => row ++ [t]) rows ys) :
    ∃ row ∈ rows, ∃ t, r = row ++ [t] := by
  induction rows generalizing ys with
  | nil => cases hr
  | cons row rows ih =>
    cases ys with
    | nil => cases hr
    | cons y ys =>
      rcases List.mem_cons.mp hr with h | h
      · exact ⟨row, by simp, y, h⟩
      · rcases ih ys h with ⟨row2, hrow2, t, ht⟩
        exact ⟨row2, by simp [hrow2], t, ht⟩

/-- Loop invariant of the generation loop: if every sampling step returns one
token per row, then after folding any iteration list the row count is
preserved and every row has grown by the number of iterations while keeping
its first token. -/
lemma genLoop_invariant (stepS : σ → List ℕ → σ × List ℕ)
    (hstep : ∀ s y, (stepS s y).2.length = y.length) (start_token : ℕ)
    (l : List ℕ) :
    ∀ (s : σ) (y : List ℕ) (rows : List (List ℕ)) (c : ℕ),
      y.length = rows.length → 1 ≤ c →
      (∀ row ∈ rows, row.length = c ∧ row.head? = some start_token) →
      ((l.foldl (fun st (_ : ℕ) =>
          let r := stepS st.1 st.2.1
          (r.1, r.2, List.zipWith (fun row t => row ++ [t]) st.2.2 r.2))
        (s, y, rows)).2.2.length = rows.length
      ∧ ∀ row ∈ (l.foldl (fun st (_ : ℕ) =>
          let r := stepS st.1 st.2.1
          (r.1, r.2, List.zipWith (fun row t => row ++ [t]) st.2.2 r.2))
        (s, y, rows)).2.2, row.length = c + l.length ∧ row.head? = some start_token) := by
  induction l with
  | nil =>
    intro s y rows c hlen _ hrows
    exact ⟨rfl, fun row hrow => by simpa using hrows row hrow⟩
  | cons i rest ih =>
    intro s y rows c hlen hc hrows
    simp only [List.foldl_cons]
    have hylen : (stepS s y).2.length = y.length := hstep s y
    have hzlen : (List.zipWith (fun row t => row ++ [t]) rows (stepS s y).2).length
        = rows.length := by
      rw [List.length_zipWith, hylen, hlen, min_self]
    have hzrows : ∀ row ∈ List.zipWith (fun row t => row ++ [t]) rows (stepS s y).2,
        row.length = c + 1 ∧ row.head? = some start_token := by
      intro r hr
      rcases mem_zipWith_append _ _ _ hr with ⟨row, hrow, t, ht⟩
      rcases hrows row hrow with ⟨hrl, hrh⟩
      subst ht
      constructor
      · simp [hrl]
      · rw [List.head?_append, hrh]
        rfl
    have := ih (stepS s y).1 (stepS s y).2
      (List.zipWith (fun row t => row ++ [t]) rows (stepS s y).2) (c + 1)
      (by rw [hylen, hlen, hzlen]) (by omega) hzrows
    refine ⟨by rw [this.1, hzlen], fun row hrow => ?_⟩
    rcases this.2 row hrow with ⟨h1, h2⟩
    exact ⟨by rw [h1]; simp [List.length_cons]; ring, h2⟩

/-- C4: whenever each sampling step yields one token per row, generate returns
batch_size rows of exactly SEQ_LENGTH tokens each, every row starting with the
given start token (the loop appends SEQ_LENGTH - 1 sampled columns to the
initial start-token column). -/
theorem generate_shape_and_start_token (stepS : σ → List ℕ → σ × List ℕ)
    (s0 : σ) (start_token batch_size SEQ_LENGTH : ℕ)
    (hstep : ∀ s y, (stepS s y).2.length = y.length)
    (hbatch : 1 ≤ batch_size) (hseq : 1 ≤ SEQ_LENGTH) :
    (generate_LSTMCore stepS s0 start_token batch_size SEQ_LENGTH).length = batch_size
    ∧ ∀ row ∈ generate_LSTMCore stepS s0 start_token batch_size SEQ_LENGTH,
        row.length = SEQ_LENGTH ∧ row.head? = some start_token := by
  have hrows : ∀ row ∈ (List.replicate batch_size start_token).map (fun t => [t]),
      row.length = 1 ∧ row.head? = some start_token := by
    intro row hrow
    rcases List.mem_map.mp hrow with ⟨t, ht, hrt⟩
    have : t = start_token := List.eq_of_mem_replicate ht
    subst this
    subst hrt
    exact ⟨rfl, rfl⟩
  have hlen : (List.replicate batch_size start_token).length
      = ((List.replicate batch_size start_token).map (fun t => [t])).length := by
    simp
  have h := genLoop_invariant stepS hstep start_token (List.range (SEQ_LENGTH - 1))
    s0 (List.replicate batch_size start_token)
    ((List.replicate batch_size start_token).map (fun t => [t])) 1 hlen le_rfl hrows
  unfold generate_LSTMCore
  refine ⟨by rw [h.1]; simp, fun row hrow => ?_⟩
  rcases h.2 row hrow with ⟨h1, h2⟩
  refine ⟨?_, h2⟩
  rw [h1, List.length_range]
  omega

/-- Witness for C4 with a concrete length-preserving sampler, batch size 2,
SEQ_LENGTH 4 and start token 0. -/
theorem generate_shape_and_start_token_witness :
    (∀ (s : Unit) (y : List ℕ), ((fun (_ : Unit) (y : List ℕ) =>
        ((), y.map (fun t => t + 1))) s y).2.length = y.length)
    ∧ (1 : ℕ) ≤ 2 ∧ (1 : ℕ) ≤ 4
    ∧ (generate_LSTMCore (fun (_ : Unit) (y : List ℕ) => ((), y.map (fun t => t + 1)))
        () 0 2 4).length = 2
    ∧ ∀ row ∈ generate_LSTMCore (fun (_ : Unit) (y : List ℕ) => ((), y.map (fun t => t + 1)))
        () 0 2 4, row.length = 4 ∧ row.head? = some 0 := by
  have hstep : ∀ (s : Unit) (y : List ℕ), ((fun (_ : Unit) (y : List ℕ) =>
      ((), y.map (fun t => t + 1))) s y).2.length = y.length := by
    intro s y
    simp
  have h := generate_shape_and_start_token
    (fun (_ : Unit) (y : List ℕ) => ((), y.map (fun t => t + 1))) () 0 2 4
    hstep (by norm_num) (by norm_num)
  exact ⟨hstep, by norm_num, by norm_num, h.1, h.2⟩

/-! ### The train_generator epoch loop

The loop is embedded at the granularity of one batch step: step takes the
model/optimizer state and the batch number k (the while loop visits
pointer = k * batch_size for k = 0, 1, ... while pointer + batch_size ≤ len(x),
i.e. exactly numBatches = len(x) / batch_size full batches, dropping any
remainder) and returns the updated state together with the per-batch record
appended to y_prob_all / y_output_all / epoch_loss.  Python failures are
modelled with Except: the epoch-average log line divides by len(epoch_loss)
(ZeroDivisionError when no batch fits), and torch.cat over the never-created
accumulators after zero epochs raises NameError. -/

/-- Number of full batches the while loop processes per epoch. -/
def numBatches (xlen batch_size : ℕ) : ℕ := xlen / batch_size

/-- One epoch: reset the accumulators, then fold the batch steps in order,
appending each batch's record. -/
def runEpoch (step : τ → ℕ → τ × ω) (nb : ℕ) (s : τ) : τ × List ω :=
  (List.range nb).foldl
    (fun acc k =>
      let r := step acc.1 k
      (r.1, acc.2 ++ [r.2]))
    (s, [])

/-- Model state after one epoch. -/
def epochState (step : τ → ℕ → τ × ω) (nb : ℕ) (s : τ) : τ := (runEpoch step nb s).1

/-- The epoch loop: each epoch re-creates the accumulator lists, runs its
batches, and ends with the log line averaging epoch_loss — a ZeroDivisionError
when that epoch processed no batch. -/
def trainEpochs (step : τ → ℕ → τ × ω) (nb : ℕ) : ℕ → τ → Except String (τ × Option (List ω))
  | 0, s => Except.ok (s, none)
  | (k + 1), s =>
    match trainEpochs step nb k s with
    | Except.error e => Except.error e
    | Except.ok (s1, _) =>
      let r := runEpoch step nb s1
      if r.2.length = 0 then Except.error "ZeroDivisionError"
      else Except.ok (r.1, some r.2)

/-- train_generator: run iter_n_gen epochs over the full batches of x and
return the updated model with the concatenated accumulators; with zero epochs
the accumulator names were never bound, so torch.cat raises (NameError). -/
def train_generator (step : τ → ℕ → τ × ω) (xlen batch_size iter_n_gen : ℕ) (s : τ) :
    Except String (τ × List ω) :=
  match trainEpochs step (numBatches xlen batch_size) iter_n_gen s with
  | Except.error e => Except.error e
  | Except.ok (_, none) => Except.error "NameError"
  | Except.ok (s1, some outs) => Except.ok (s1, outs)

/-- runEpoch records exactly one entry per batch. -/
lemma runEpoch_record_length (step : τ → ℕ → τ × ω) (nb : ℕ) (s : τ) :
    (runEpoch step nb s).2.length = nb := by
  suffices h : ∀ (l : List ℕ) (s : τ) (acc : List ω),
      (l.foldl (fun acc k => let r := step acc.1 k; (r.1, acc.2 ++ [r.2])) (s, acc)).2.length
        = acc.length + l.length by
    simpa using h (List.range nb) s []
  intro l
  induction l with
  | nil => intro s acc; simp
  | cons k rest ih =>
    intro s acc
    simp only [List.foldl_cons]
    rw [ih]
    simp
    omega

/-- Closed form of the epoch loop when every epoch has at least one batch:
the state is the n-fold iterate of the epoch transition, and the accumulators
hold exactly the records of the last epoch run so far. -/
lemma trainEpochs_closed_form (step : τ → ℕ → τ × ω) (nb : ℕ) (hnb : 1 ≤ nb) :
    ∀ (n : ℕ) (s : τ), 1 ≤ n →
      trainEpochs step nb n s
        = Except.ok ((epochState step nb)^[n] s,
            some (runEpoch step nb ((epochState step nb)^[n - 1] s)).2) := by
  intro n
  induction n with
  | zero => intro s h; omega
  | succ k ih =>
    intro s _
    show (match trainEpochs step nb k s with
      | Except.error e => Except.error e
      | Except.ok (s1, _) =>
        let r := runEpoch step nb s1
        if r.2.length = 0 then Except.error "ZeroDivisionError"
        else Except.ok (r.1, some r.2)) = _
    by_cases hk : 1 ≤ k
    · rw [ih s hk]
      have hlen : (runEpoch step nb ((epochState step nb)^[k] s)).2.length = nb :=
        runEpoch_record_length step nb _
      simp only [hlen]
      rw [if_neg (by omega)]
      rw [Function.iterate_succ_apply' (epochState step nb) k s]
      rfl
    · have hk0 : k = 0 := by omega
      subst hk0
      show (let r := runEpoch step nb s
        if r.2.length = 0 then Except.error "ZeroDivisionError"
        else Except.ok (r.1, some r.2)) = _
      have hlen : (runEpoch step nb s).2.length = nb := runEpoch_record_length step nb s
      simp only [hlen]
      rw [if_neg (by omega)]
      simp [epochState]

/-- C6: for every epoch count ≥ 1 (and at least one full batch per epoch),
train_generator returns the model state after all epochs together with
accumulators holding exactly one record per full batch of the FINAL epoch —
computed from the model state left by the first iter_n_gen - 1 epochs — since
the accumulator lists are re-created at the start of each epoch. -/
theorem train_returns_last_epoch_outputs (step : τ → ℕ → τ × ω)
    (xlen batch_size iter_n_gen : ℕ) (s : τ)
    (hnb : 1 ≤ numBatches xlen batch_size) (hn : 1 ≤ iter_n_gen) :
    train_generator step xlen batch_size iter_n_gen s
      = Except.ok ((epochState step (numBatches xlen batch_size))^[iter_n_gen] s,
          (runEpoch step (numBatches xlen batch_size)
            ((epochState step (numBatches xlen batch_size))^[iter_n_gen - 1] s)).2)
    ∧ (runEpoch step (numBatches xlen batch_size)
        ((epochState step (numBatches xlen batch_size))^[iter_n_gen - 1] s)).2.length
      = numBatches xlen batch_size := by
  constructor
  · unfold train_generator
    rw [trainEpochs_closed_form step (numBatches xlen batch_size) hnb iter_n_gen s hn]
  · exact runEpoch_record_length step _ _

/-- Witness for C6: two epochs over x of length 2 with batch_size 1; the step
increments a counter state and records it. -/
theorem train_returns_last_epoch_outputs_witness :
    (1 ≤ numBatches 2 1 ∧ 1 ≤ 2)
    ∧ train_generator (fun (s : ℕ) (k : ℕ) => (s + 1, s * 10 + k)) 2 1 2 0
        = Except.ok ((epochState (fun (s : ℕ) (k : ℕ) => (s + 1, s * 10 + k)) (numBatches 2 1))^[2] 0,
            (runEpoch (fun (s : ℕ) (k : ℕ) => (s + 1, s * 10 + k)) (numBatches 2 1)
              ((epochState (fun (s : ℕ) (k : ℕ) => (s + 1, s * 10 + k)) (numBatches 2 1))^[2 - 1] 0)).2) := by
  have h := train_returns_last_epoch_outputs (fun (s : ℕ) (k : ℕ) => (s + 1, s * 10 + k))
    2 1 2 0 (by norm_num [numBatches]) (by norm_num)
  exact ⟨⟨by norm_num [numBatches], by norm_num⟩, h.1⟩

/-- With zero batches the epoch loop fails at the first epoch-average log
line. -/
lemma trainEpochs_no_batch_error (step : τ → ℕ → τ × ω) :
    ∀ (n : ℕ) (s : τ), 1 ≤ n →
      trainEpochs step 0 n s = Except.error "ZeroDivisionError" := by
  intro n
  induction n with
  | zero => intro s h; omega
  | succ k ih =>
    intro s _
    show (match trainEpochs step 0 k s with
      | Except.error e => Except.error e
      | Except.ok (s1, _) =>
        let r := runEpoch step 0 s1
        if r.2.length = 0 then Except.error "ZeroDivisionError"
        else Except.ok (r.1, some r.2)) = _
    by_cases hk : 1 ≤ k
    · rw [ih s hk]
    · have hk0 : k = 0 := by omega
      subst hk0
      rfl

/-- C10: when batch_size exceeds the number of input sequences, no batch fits
(len(x) / batch_size = 0), so no forward pass or optimizer step runs in any
epoch — the epoch runs zero steps and leaves the state untouched — and
train_generator fails with the division by len(epoch_loss) = 0 instead of
returning. -/
theorem train_oversized_batch_fails (step : τ → ℕ → τ × ω)
    (xlen batch_size iter_n_gen : ℕ) (s : τ)
    (hx : xlen < batch_size) (hn : 1 ≤ iter_n_gen) :
    numBatches xlen batch_size = 0
    ∧ runEpoch step (numBatches xlen batch_size) s = (s, [])
    ∧ train_generator step xlen batch_size iter_n_gen s
        = Except.error "ZeroDivisionError" := by
  have h0 : numBatches xlen batch_size = 0 := Nat.div_eq_of_lt hx
  refine ⟨h0, by rw [h0]; rfl, ?_⟩
  unfold train_generator
  rw [h0, trainEpochs_no_batch_error step iter_n_gen s hn]

/-- Witness for C10: one input sequence, batch_size 2, one epoch. -/
theorem train_oversized_batch_fails_witness :
    ((1 : ℕ) < 2 ∧ (1 : ℕ) ≤ 1)
    ∧ numBatches 1 2 = 0
    ∧ runEpoch (fun (s : ℕ) (k : ℕ) => (s + 1, s * 10 + k)) (numBatches 1 2) 0 = (0, [])
    ∧ train_generator (fun (s : ℕ) (k : ℕ) => (s + 1, s * 10 + k)) 1 2 1 0
        = Except.error "ZeroDivisionError" := by
  have h := train_oversized_batch_fails (fun (s : ℕ) (k : ℕ) => (s + 1, s * 10 + k))
    1 2 1 0 (by norm_num) (by norm_num)
  exact ⟨⟨by norm_num, by norm_num⟩, h⟩

/-! ### C5: zero rewards freeze the parameters -/

/-- One train_generator batch step as seen by a single trainable parameter p:
slice the inputs and rewards at the batch pointer, view the batch loss as a
function of the parameter (predF abstracts the network's probability tensor as
a function of that parameter and the batch number, all other parameters held
fixed), and apply the plain SGD rule with learning rate 0.01; the recorded
value is the batch loss (loss_var.item()). -/
noncomputable def sgdBatchStep (predF : ℝ → ℕ → List (List (List ℝ)))
    (x : List (List ℕ)) (reward : List (List ℝ)) (batch_size : ℕ)
    (p : ℝ) (k : ℕ) : ℝ × ℝ :=
  let x_batch := (x.drop (k * batch_size)).take batch_size
  let r_batch := (reward.drop (k * batch_size)).take batch_size
  let lossF := fun θ => GeneratorLoss_forward (predF θ k) x_batch r_batch
  (p - 0.01 * deriv lossF p, lossF p)

/-- Batch slices of an all-zero reward tensor are all-zero. -/
lemma slice_all_zero (reward : List (List ℝ))
    (h : ∀ row ∈ reward, ∀ v ∈ row, v = 0) (a b : ℕ) :
    ∀ row ∈ (reward.drop a).take b, ∀ v ∈ row, v = 0 :=
  fun row hrow => h row (List.mem_of_mem_drop (List.mem_of_mem_take hrow))

/-- runEpoch with a step that fixes the state and always records c. -/
lemma runEpoch_const_step (c : ω) (nb : ℕ) (p : τ) :
    runEpoch (fun (s : τ) (_ : ℕ) => (s, c)) nb p = (p, List.replicate nb c) := by
  suffices h : ∀ (l : List ℕ) (acc : List ω),
      (l.foldl (fun acc k =>
          let r := (fun (s : τ) (_ : ℕ) => (s, c)) acc.1 k
          (r.1, acc.2 ++ [r.2])) (p, acc))
        = (p, acc ++ List.replicate l.length c) by
    simpa using h (List.range nb) []
  intro l
  induction l with
  | nil => intro acc; simp
  | cons k rest ih =>
    intro acc
    simp only [List.foldl_cons]
    rw [ih]
    simp [List.replicate_succ]

/-- Under an all-zero reward tensor the SGD batch step is the identity on the
parameter and records a zero loss. -/
lemma sgdBatchStep_zero_reward (predF : ℝ → ℕ → List (List (List ℝ)))
    (x : List (List ℕ)) (reward : List (List ℝ)) (batch_size : ℕ)
    (h : ∀ row ∈ reward, ∀ v ∈ row, v = 0) :
    sgdBatchStep predF x reward batch_size = fun p _ => (p, 0) := by
  funext p k
  have hz : (fun θ => GeneratorLoss_forward (predF θ k)
      ((x.drop (k * batch_size)).take batch_size)
      ((reward.drop (k * batch_size)).take batch_size)) = fun _ => (0 : ℝ) := by
    funext θ
    exact generatorLoss_zero_of_zero_rewards _ _ _
      (slice_all_zero reward h (k * batch_size) batch_size)
  have h2 : GeneratorLoss_forward (predF p k)
      ((x.drop (k * batch_size)).take batch_size)
      ((reward.drop (k * batch_size)).take batch_size) = 0 :=
    generatorLoss_zero_of_zero_rewards _ _ _
      (slice_all_zero reward h (k * batch_size) batch_size)
  show (p - 0.01 * deriv (fun θ => GeneratorLoss_forward (predF θ k)
      ((x.drop (k * batch_size)).take batch_size)
      ((reward.drop (k * batch_size)).take batch_size)) p,
    GeneratorLoss_forward (predF p k)
      ((x.drop (k * batch_size)).take batch_size)
      ((reward.drop (k * batch_size)).take batch_size)) = (p, 0)
  rw [hz, h2]
  simp

/-- C5: with a reward tensor that is zero at every position, one full epoch of
train_generator leaves the trainable parameter unchanged: each batch loss is
identically zero as a function of the parameter, its derivative is zero, and
the SGD update with learning rate 0.01 is a no-op on every one of the
len(x) / batch_size batch steps. -/
theorem zero_reward_epoch_preserves_params (predF : ℝ → ℕ → List (List (List ℝ)))
    (x : List (List ℕ)) (reward : List (List ℝ)) (batch_size : ℕ) (p : ℝ)
    (h : ∀ row ∈ reward, ∀ v ∈ row, v = 0) :
    (runEpoch (sgdBatchStep predF x reward batch_size)
        (numBatches x.length batch_size) p).1 = p
    ∧ ∀ o ∈ (runEpoch (sgdBatchStep predF x reward batch_size)
        (numBatches x.length batch_size) p).2, o = 0 := by
  rw [sgdBatchStep_zero_reward predF x reward batch_size h]
  rw [runEpoch_const_step (0 : ℝ) (numBatches x.length batch_size) p]
  exact ⟨rfl, fun o ho => List.eq_of_mem_replicate ho⟩

/-- Witness for C5: a single batch whose prediction really depends on the
parameter, reward zero. -/
theorem zero_reward_epoch_preserves_params_witness :
    (∀ row ∈ [[(0 : ℝ)]], ∀ v ∈ row, v = 0)
    ∧ (runEpoch (sgdBatchStep (fun θ _ => [[[θ, 1 - θ]]]) [[0]] [[(0 : ℝ)]] 1)
        (numBatches ([[(0 : ℕ)]]).length 1) 1).1 = 1 := by
  have h : ∀ row ∈ [[(0 : ℝ)]], ∀ v ∈ row, v = 0 := by
    intro row hrow v hv
    simp at hrow
    subst hrow
    simpa using hv
  have hthm := zero_reward_epoch_preserves_params (fun θ _ => [[[θ, 1 - θ]]])
    [[0]] [[(0 : ℝ)]] 1 1 h
  exact ⟨h, hthm.1⟩

/-! ### C9: batch-permutation invariance of the loss -/

/-- The three tensors zipped along the batch dimension: one (prediction row
block, reference row, reward row) triple per batch element. -/
def zip3 (pred : List (List (List ℝ))) (x : List (List ℕ)) (r : List (List ℝ)) :
    List (List (List ℝ) × List ℕ × List ℝ) :=
  zipWith3 (fun a b c => (a, b, c)) pred x r

/-- Loss contribution of one batch row. -/
noncomputable def rowLoss (p : List (List ℝ)) (tk : List ℕ) (r : List ℝ) : ℝ :=
  (zipWith3 lossTerm p tk r).sum

lemma zipWith3_append (f : α → β → γ → δ) (a : List α) (b : List β) (c : List γ)
    (A : List α) (B : List β) (C : List γ)
    (h1 : a.length = b.length) (h2 : b.length = c.length) :
    zipWith3 f (a ++ A) (b ++ B) (c ++ C) = zipWith3 f a b c ++ zipWith3 f A B C := by
  induction a generalizing b c with
  | nil =>
    cases b with
    | nil =>
      cases c with
      | nil => rfl
      | cons _ _ => simp at h2
    | cons _ _ => simp at h1
  | cons x xs ih =>
    cases b with
    | nil => simp at h1
    | cons y ys =>
      cases c with
      | nil => simp at h2
      | cons z zs =>
        simp only [List.cons_append, zipWith3]
        congr 1
        exact ih ys zs (by simpa using h1) (by simpa using h2)

lemma zipWith3_map_triple (g : List (List ℝ) × List ℕ × List ℝ → ℝ)
    (pred : List (List (List ℝ))) (x : List (List ℕ)) (r : List (List ℝ)) :
    (zip3 pred x r).map g = zipWith3 (fun a b c => g (a, b, c)) pred x r := by
  unfold zip3
  induction pred generalizing x r with
  | nil => cases x <;> cases r <;> rfl
  | cons p ps ih =>
    cases x with
    | nil => rfl
    | cons xr xs =>
      cases r with
      | nil => rfl
      | cons rr rs => simp [zipWith3, ih xs rs]

/-- When the three tensors have the same batch length and their rows are
aligned (equal per-row position counts), the flattened loss sum decomposes as
the sum of the per-batch-row contributions. -/
lemma generatorLoss_eq_sum_rows (pred : List (List (List ℝ))) (x : List (List ℕ))
    (r : List (List ℝ)) (h1 : pred.length = x.length) (h2 : x.length = r.length)
    (halign : ∀ t ∈ zip3 pred x r, t.1.length = t.2.1.length ∧ t.2.1.length = t.2.2.length) :
    GeneratorLoss_forward pred x r = ((zip3 pred x r).map (fun t => rowLoss t.1 t.2.1 t.2.2)).sum := by
  induction pred generalizing x r with
  | nil =>
    cases x with
    | nil =>
      cases r with
      | nil => rfl
      | cons _ _ => simp at h2
    | cons _ _ => simp at h1
  | cons p ps ih =>
    cases x with
    | nil => simp at h1
    | cons xr xs =>
      cases r with
      | nil => simp at h2
      | cons rr rs =>
        have hhead : p.length = xr.length ∧ xr.length = rr.length :=
          halign (p, xr, rr) (by simp [zip3, zipWith3])
        have htail : ∀ t ∈ zip3 ps xs rs,
            t.1.length = t.2.1.length ∧ t.2.1.length = t.2.2.length := by
          intro t ht
          exact halign t (by simp [zip3, zipWith3] at ht ⊢; right; exact ht)
        unfold GeneratorLoss_forward
        simp only [List.flatten_cons]
        rw [zipWith3_append lossTerm p xr rr ps.flatten xs.flatten rs.flatten
          hhead.1 hhead.2, List.sum_append]
        have := ih xs rs (by simpa using h1) (by simpa using h2) htail
        unfold GeneratorLoss_forward at this
        rw [this]
        simp [zip3, zipWith3, rowLoss]

/-- C9: the loss is invariant under any permutation of the batch dimension
applied consistently to the prediction, reference and reward tensors (stated
via a permutation of the zipped batch-row triples; row alignment and equal
batch lengths hold for any well-shaped tensor triple). -/
theorem generatorLoss_batch_perm_invariant
    (pred pred2 : List (List (List ℝ))) (x x2 : List (List ℕ)) (r r2 : List (List ℝ))
    (h1 : pred.length = x.length) (h2 : x.length = r.length)
    (h3 : pred2.length = x2.length) (h4 : x2.length = r2.length)
    (halign : ∀ t ∈ zip3 pred x r, t.1.length = t.2.1.length ∧ t.2.1.length = t.2.2.length)
    (hperm : List.Perm (zip3 pred x r) (zip3 pred2 x2 r2)) :
    GeneratorLoss_forward pred x r = GeneratorLoss_forward pred2 x2 r2 := by
  have halign2 : ∀ t ∈ zip3 pred2 x2 r2,
      t.1.length = t.2.1.length ∧ t.2.1.length = t.2.2.length :=
    fun t ht => halign t (hperm.mem_iff.mpr ht)
  rw [generatorLoss_eq_sum_rows pred x r h1 h2 halign,
    generatorLoss_eq_sum_rows pred2 x2 r2 h3 h4 halign2]
  exact (hperm.map (fun t => rowLoss t.1 t.2.1 t.2.2)).sum_eq

/-- Witness for C9: swapping the two batch rows of a 2 × 1 × 2 input leaves
the loss unchanged. -/
theorem generatorLoss_batch_perm_invariant_witness :
    List.Perm (zip3 [[[0.5, 0.5]], [[0.25, 0.75]]] [[1], [0]] [[(2 : ℝ)], [3]])
        (zip3 [[[0.25, 0.75]], [[0.5, 0.5]]] [[0], [1]] [[(3 : ℝ)], [2]])
    ∧ GeneratorLoss_forward [[[0.5, 0.5]], [[0.25, 0.75]]] [[1], [0]] [[(2 : ℝ)], [3]]
        = GeneratorLoss_forward [[[0.25, 0.75]], [[0.5, 0.5]]] [[0], [1]] [[(3 : ℝ)], [2]] := by
  have hperm : List.Perm (zip3 [[[0.5, 0.5]], [[0.25, 0.75]]] [[1], [0]] [[(2 : ℝ)], [3]])
      (zip3 [[[0.25, 0.75]], [[0.5, 0.5]]] [[0], [1]] [[(3 : ℝ)], [2]]) := by
    show List.Perm [([[0.5, 0.5]], [1], [(2 : ℝ)]), ([[0.25, 0.75]], [0], [(3 : ℝ)])]
      [([[0.25, 0.75]], [0], [(3 : ℝ)]), ([[0.5, 0.5]], [1], [(2 : ℝ)])]
    exact List.Perm.swap _ _ _
  have halign : ∀ t ∈ zip3 [[[0.5, 0.5]], [[0.25, 0.75]]] [[1], [0]] [[(2 : ℝ)], [3]],
      t.1.length = t.2.1.length ∧ t.2.1.length = t.2.2.length := by
    intro t ht
    simp [zip3, zipWith3] at ht
    rcases ht with h | h <;> subst h <;> exact ⟨rfl, rfl⟩
  exact ⟨hperm, generatorLoss_batch_perm_invariant _ _ _ _ _ _ rfl rfl rfl rfl halign hperm⟩

end SeqGAN
